import Mathlib

/-!
Verification of the nimbus-crawler coordination plane: a shallow embedding of
the URL state store, retry backoff, parser pipeline, stream consumer,
DNS cache, robots crawl-delay extraction and link normalization, with
theorems settling the specification claims against the code.
-/

namespace Nimbus

/-- URL lifecycle states, from `models.URLStatus` (`src/unnamed/part_007`). -/
inductive URLStatus
  | pending
  | crawling
  | crawled
  | parsed
  | failed
  | skipped
deriving DecidableEq, Repr

/-- A row of the `urls` table, from `models.URLRecord` (`src/unnamed/part_007`).
Timestamps are modelled as abstract `Nat` ticks. -/
structure URLRow where
  id : String
  url : String
  domain : String
  depth : Int
  status : URLStatus
  retryCount : Nat
  contentHash : Option String
  s3HTMLLink : Option String
  s3TextLink : Option String
  updatedAt : Nat
deriving DecidableEq, Repr

/-- `models.UpsertURLReturning` (`src/unnamed/part_007`):
`INSERT ... VALUES ($1,$2,$3,'crawling') ON CONFLICT (url) DO UPDATE SET
 status = CASE WHEN urls.status IN ('pending','failed') THEN 'crawling' ELSE urls.status END,
 updated_at = NOW() RETURNING id, status`.
The table is keyed by the unique `url`; `existing` is the row currently stored
under that url (`none` when absent). Returns the stored row together with the
`RETURNING (id, status)` pair, which PostgreSQL takes from the post-update row. -/
def upsertURLReturning (existing : Option URLRow) (newId : String)
    (rawURL domain : String) (depth : Int) (now : Nat) : URLRow × String × URLStatus :=
  match existing with
  | none =>
      let r : URLRow :=
        { id := newId, url := rawURL, domain := domain, depth := depth,
          status := .crawling, retryCount := 0, contentHash := none,
          s3HTMLLink := none, s3TextLink := none, updatedAt := now }
      (r, r.id, r.status)
  | some r =>
      let newStatus :=
        if r.status = .pending ∨ r.status = .failed then URLStatus.crawling else r.status
      let r' := { r with status := newStatus, updatedAt := now }
      (r', r'.id, r'.status)

/-- Two successive claims of the same fresh URL, as issued by two crawler
workers in `Crawler.processMessage` (`src/go.mod`): the first sees no row, the
second sees the row the first one stored. Returns the two observed statuses. -/
def claimTwice (rawURL domain : String) (depth : Int) : URLStatus × URLStatus :=
  let (r1, _, s1) := upsertURLReturning none "id-a" rawURL domain depth 10
  let (_, _, s2) := upsertURLReturning (some r1) "id-b" rawURL domain depth 11
  (s1, s2)

/-- C1: the claim is violated by the code. `UpsertURLReturning`'s
`ON CONFLICT` CASE leaves an existing `crawling` row at `crawling`, and
`RETURNING` reports the post-update row, so a second claim of a URL whose row
is already `crawling` also observes `crawling`: both of two successive claim
invocations on the same URL return `crawling`. -/
theorem upsert_second_claim_also_observes_crawling :
    claimTwice "https://example.com/" "example.com" 0 = (.crawling, .crawling) := by
  rfl

/-- C10: when the claimed URL already exists, `UpsertURLReturning` changes only
`status` (by the pending/failed → crawling rule) and `updated_at`; `depth`,
`domain`, `retry_count` and every other column keep their stored values, so a
URL rediscovered at a different depth keeps its originally recorded depth. -/
theorem upsert_existing_row_frame (r : URLRow) (newId : String)
    (rawURL domain : String) (depth : Int) (now : Nat) :
    let r' := (upsertURLReturning (some r) newId rawURL domain depth now).1
    r'.depth = r.depth ∧ r'.domain = r.domain ∧ r'.retryCount = r.retryCount ∧
      r'.id = r.id ∧ r'.url = r.url ∧ r'.contentHash = r.contentHash ∧
      r'.s3HTMLLink = r.s3HTMLLink ∧ r'.s3TextLink = r.s3TextLink ∧
      r'.status = (if r.status = .pending ∨ r.status = .failed
        then URLStatus.crawling else r.status) ∧
      r'.updatedAt = now := by
  refine ⟨rfl, rfl, rfl, rfl, rfl, rfl, rfl, rfl, rfl, rfl⟩

/-! ## Retry backoff (`src/internal/crawler/backoff.go`) -/

/-- `backoffDuration` from `src/internal/crawler/backoff.go`:
`base := math.Pow(2, float64(retryCount)); jitter := rand.Float64()*base*0.5;
 return time.Duration(base+jitter) * time.Second`.
`j` models the `rand.Float64()` draw, a value in `[0, 1)`; the float-to-
`time.Duration` conversion truncates, so the result is `⌊base + jitter⌋`
whole seconds. -/
def backoffDuration (retryCount : Nat) (j : ℚ) : ℤ :=
  ⌊(2 ^ retryCount : ℚ) + j * 2 ^ retryCount * (1 / 2)⌋

/-- Outcome of a failed fetch in `Crawler.processMessage` (`src/go.mod`). -/
inductive FailOutcome
  | deadLetter
  | retryAfter (delaySeconds : ℤ)
deriving DecidableEq, Repr

/-- The fetch-failure branch of `Crawler.processMessage` (`src/go.mod`):
`IncrementRetryAndMaybeFailURL` (`src/unnamed/part_007`) atomically bumps
`retry_count` and returns the new count `priorRetry + 1`; if that count has
reached `maxRetries` the delivery is dead-lettered, otherwise it is acked and
a deferred re-publish is scheduled after `backoffDuration(new count)`. -/
def onFetchFailure (priorRetry maxRetries : Nat) (j : ℚ) : FailOutcome :=
  let newCount := priorRetry + 1
  if maxRetries ≤ newCount then .deadLetter
  else .retryAfter (backoffDuration newCount j)

/-- C2 counterexample: the first deferred re-publish (retry 0: no retries yet
consumed, `retry_count` goes 0 → 1) with zero jitter waits exactly 2 seconds,
not a delay in `[1, 1.5)` seconds as the claim states. -/
theorem first_retry_delay_not_in_claimed_interval :
    onFetchFailure 0 3 0 = .retryAfter 2 ∧ ¬ ((2 : ℚ) < 3 / 2) := by
  constructor
  · have h : backoffDuration 1 0 = 2 := by
      unfold backoffDuration
      norm_num
    simp [onFetchFailure, h]
  · norm_num

/-- C2 amended: the crawler passes the already-incremented retry count to
`backoffDuration`, so the delay before the deferred re-publish of retry N
(0-indexed, N retries already consumed) has base `2^(N+1)` seconds with
jitter uniform in `[0, base/2)`: it lies in `[2^(N+1), 1.5·2^(N+1))` seconds
— `[2, 3)` for the first retry, `[4, 6)` for the second. -/
theorem retry_delay_interval (N maxRetries : Nat) (j : ℚ)
    (hj0 : 0 ≤ j) (hj1 : j < 1) (hleft : N + 1 < maxRetries) :
    ∃ d, onFetchFailure N maxRetries j = .retryAfter d ∧
      (2 ^ (N + 1) : ℤ) ≤ d ∧ (d : ℚ) < 3 / 2 * 2 ^ (N + 1) := by
  refine ⟨backoffDuration (N + 1) j, ?_, ?_, ?_⟩
  · unfold onFetchFailure
    simp [Nat.not_le.mpr hleft]
  · unfold backoffDuration
    rw [Int.le_floor]
    push_cast
    nlinarith [pow_pos (by norm_num : (0:ℚ) < 2) (N + 1)]
  · unfold backoffDuration
    have h1 : (((⌊(2 ^ (N+1) : ℚ) + j * 2 ^ (N+1) * (1 / 2)⌋ : ℤ)) : ℚ) ≤
        (2 ^ (N+1) : ℚ) + j * 2 ^ (N+1) * (1 / 2) := Int.floor_le _
    have h2 : (2 ^ (N+1) : ℚ) + j * 2 ^ (N+1) * (1 / 2) < 3 / 2 * 2 ^ (N + 1) := by
      nlinarith [pow_pos (by norm_num : (0:ℚ) < 2) (N + 1)]
    linarith

/-- Witness for `retry_delay_interval` at N = 0, `max_retries` = 3,
jitter draw 1/2. -/
theorem retry_delay_interval_witness :
    ∃ d, onFetchFailure 0 3 (1 / 2) = .retryAfter d ∧
      (2 ^ (0 + 1) : ℤ) ≤ d ∧ (d : ℚ) < 3 / 2 * 2 ^ (0 + 1) :=
  retry_delay_interval 0 3 (1 / 2) (by norm_num) (by norm_num) (by norm_num)

/-! ## Parser worker pipeline (`src/internal/parser/parser.go`) -/

/-- `queue.ParseMessage`: the payload of a Parse-stream job. -/
structure ParseMessage where
  urlID : String
  url : String
  s3HTMLLink : String
  depth : Int
deriving DecidableEq, Repr

/-- `queue.URLMessage`: the payload of a Frontier-stream job. -/
structure URLMessage where
  url : String
  depth : Int
deriving DecidableEq, Repr

/-- A database statement issued by the parser pipeline. -/
inductive DBOp
  | updateStatus (id : String) (st : URLStatus)
  | upsertDomain (domain : String) (delayMs : Int)
  | bulkInsert (urls domains : List String) (depth : Int)
  | updateParsed (id hash textLink : String)
deriving DecidableEq, Repr

/-- The final disposition of a delivery: `Ack`, `Nack(false)` (requeue via
PEL reclaim) or `Nack(true)` (re-publish to the DLQ then ack). -/
inductive AckAction
  | ack
  | nackRequeue
  | nackDLQ
deriving DecidableEq, Repr

/-- One URL returned by `ExtractURLs`, together with the oracle outcome of
`url.Parse(u).Hostname()` for it (`none` models a parse error). -/
structure ExtractedURL where
  url : String
  host : Option String
deriving DecidableEq, Repr

/-- `storage.TextBucket` (`src/unnamed/part_009`). -/
def textBucket : String := "nimbus-text"

/-- `robots.DefaultCrawlDelayMs` (`src/internal/robots/robots.go`). -/
def defaultCrawlDelayMs : Int := 200

/-- The environment a single `Parser.processMessage` run observes: results of
JSON decoding, the object store, the database, the stream broker and the HTML
parser, each supplied as an oracle. -/
structure ParserEnv where
  unmarshal : Option ParseMessage
  getObject : Except Unit String
  hashOf : String
  hashExists : Except Unit Bool
  docOK : Bool
  extracted : List ExtractedURL
  text : String
  textKey : String
  putText : Except Unit Unit
  streamLen : Except Unit Int
  bulkInserted : List String
  updateParsed : Except Unit Unit
  seenDomains : List String

/-- The observable effects of one `Parser.processMessage` run. -/
structure ParserOut where
  dbOps : List DBOp
  textPuts : List (String × String × String)
  published : List URLMessage
  action : AckAction
deriving DecidableEq, Repr

/-- Split a character list at its first `'/'`. -/
def splitFirstSlash : List Char → Option (List Char × List Char)
  | [] => none
  | c :: rest =>
      if c = '/' then some ([], rest)
      else (splitFirstSlash rest).map (fun p => (c :: p.1, p.2))

/-- `strings.SplitN(link, "/", 2)` with the `len(parts) != 2` guard of
`Parser.processMessage`: `SplitN` with n = 2 yields two parts (split at the
first separator) exactly when the link contains a `/`, else one part and the
guard nack-DLQs. -/
def splitBucketKey (link : String) : Option (String × String) :=
  (splitFirstSlash link.toList).map (fun p => (String.mk p.1, String.mk p.2))

/-- First-occurrence deduplication, modelling the per-page effect of
`domainCache.LoadOrStore` on repeated domains within one message. -/
def dedupKeepFirst (l : List String) : List String :=
  l.foldl (fun acc d => if d ∈ acc then acc else acc ++ [d]) []

/-- The per-link filter of the publish block of `Parser.processMessage`:
`url.Parse` errors and empty hostnames are dropped; the survivors are the
`(validURLs, validDomains)` pairs. -/
def parserValids (extracted : List ExtractedURL) : List (String × String) :=
  extracted.filterMap (fun e =>
    match e.host with
    | none => none
    | some h => if h = "" then none else some (e.url, h))

/-- The backpressure flag of `Parser.processMessage`: true exactly when the
`StreamLen` call succeeded (`bpErr == nil`) and reported a length above the
source's `backpressureThreshold = 80000`. -/
def underBackpressure (streamLen : Except Unit Int) : Bool :=
  match streamLen with
  | .ok l => decide (80000 < l)
  | .error _ => false

/-- The link-publishing block of `Parser.processMessage`: when not under
backpressure, with links extracted and `depth + 1 ≤ max_depth`, upsert each
unseen domain, bulk-insert the valid URLs at `depth + 1`, and publish the
newly-inserted ones (the bulk insert's return) to the Frontier. Returns the
DB statements issued and the messages handed to `PublishURLBatch`. -/
def parserPublishStage (maxDepth : Int) (env : ParserEnv) (msg : ParseMessage) :
    List DBOp × List URLMessage :=
  if underBackpressure env.streamLen = false ∧ env.extracted ≠ [] ∧
      msg.depth + 1 ≤ maxDepth then
    let newDepth := msg.depth + 1
    let valids := parserValids env.extracted
    let validURLs := valids.map Prod.fst
    let validDomains := valids.map Prod.snd
    let unseen := dedupKeepFirst (validDomains.filter (fun d => decide (d ∉ env.seenDomains)))
    let domOps := unseen.map (fun d => DBOp.upsertDomain d defaultCrawlDelayMs)
    if validURLs ≠ [] then
      (domOps ++ [.bulkInsert validURLs validDomains newDepth],
        env.bulkInserted.map (fun u => { url := u, depth := newDepth }))
    else (domOps, [])
  else ([], [])

/-- The tail of `Parser.processMessage` after the text blob is stored: run
the publish block, then issue `UpdateURLParsed(id, hash, text link)`; its
failure nack-requeues, success acks. -/
def parserFinish (maxDepth : Int) (env : ParserEnv) (msg : ParseMessage) : ParserOut :=
  let s3TextLink := textBucket ++ "/" ++ env.textKey
  let stage := parserPublishStage maxDepth env msg
  match env.updateParsed with
  | .error _ =>
      { dbOps := stage.1 ++ [.updateParsed msg.urlID env.hashOf s3TextLink],
        textPuts := [(textBucket, env.textKey, env.text)], published := stage.2,
        action := .nackRequeue }
  | .ok _ =>
      { dbOps := stage.1 ++ [.updateParsed msg.urlID env.hashOf s3TextLink],
        textPuts := [(textBucket, env.textKey, env.text)], published := stage.2,
        action := .ack }

/-- `Parser.processMessage` (`src/internal/parser/parser.go`), as a pure
function of its oracle environment: decode, fetch the blob, dedup by content
hash, parse, store text, then `parserFinish`. Issued DB statements,
object-store puts and publishes are recorded in order. -/
def parserProcessMessage (maxDepth : Int) (env : ParserEnv) : ParserOut :=
  match env.unmarshal with
  | none => { dbOps := [], textPuts := [], published := [], action := .nackDLQ }
  | some msg =>
    match splitBucketKey msg.s3HTMLLink with
    | none => { dbOps := [], textPuts := [], published := [], action := .nackDLQ }
    | some _ =>
    match env.getObject with
    | .error _ => { dbOps := [], textPuts := [], published := [], action := .nackRequeue }
    | .ok _ =>
    match env.hashExists with
    | .error _ => { dbOps := [], textPuts := [], published := [], action := .nackRequeue }
    | .ok true =>
        { dbOps := [.updateStatus msg.urlID .skipped], textPuts := [], published := [],
          action := .ack }
    | .ok false =>
    if env.docOK = false then
      { dbOps := [], textPuts := [], published := [], action := .nackDLQ }
    else
    match env.putText with
    | .error _ =>
        { dbOps := [], textPuts := [(textBucket, env.textKey, env.text)], published := [],
          action := .nackRequeue }
    | .ok _ => parserFinish maxDepth env msg

/-- The effect of one DB statement on the `urls` row it addresses.
`UpdateURLStatus` (`src/unnamed/part_007`) sets only `status` and
`updated_at`; `UpdateURLParsed` sets `status`, `content_hash`, `s3_text_link`
and `updated_at`. -/
def applyDBOp (now : Nat) (r : URLRow) (op : DBOp) : URLRow :=
  match op with
  | .updateStatus i st => if i = r.id then { r with status := st, updatedAt := now } else r
  | .updateParsed i h t =>
      if i = r.id then
        { r with
          status := .parsed
          contentHash := some h
          s3TextLink := some t
          updatedAt := now }
      else r
  | _ => r

/-- A concrete Parse delivery whose content hash is already present in the
URL table (`hashExists` answers true). -/
def dupHashEnv : ParserEnv :=
  { unmarshal := some
      { urlID := "id1", url := "https://y/p", s3HTMLLink := "nimbus-html/k1", depth := 1 }
    getObject := .ok "<html>same</html>"
    hashOf := "h1"
    hashExists := .ok true
    docOK := true
    extracted := [{ url := "https://y/q", host := some "y" }]
    text := "same"
    textKey := "k1t"
    putText := .ok ()
    streamLen := .ok 0
    bulkInserted := ["https://y/q"]
    updateParsed := .ok ()
    seenDomains := [] }

/-- The `urls` row addressed by `dupHashEnv`, with no content hash yet. -/
def dupHashRow : URLRow :=
  { id := "id1", url := "https://y/p", domain := "y", depth := 1, status := .crawled,
    retryCount := 0, contentHash := none, s3HTMLLink := some "nimbus-html/k1",
    s3TextLink := none, updatedAt := 0 }

/-- C3 counterexample: on a duplicate content hash the parser issues only
`UpdateURLStatus(id, skipped)` and acks, and that statement does not set
`content_hash` — the skipped row's `content_hash` stays NULL, against the
claim that it is marked skipped "with its content_hash set". -/
theorem dup_hash_row_lacks_content_hash :
    (parserProcessMessage 3 dupHashEnv).dbOps = [.updateStatus "id1" .skipped] ∧
    (parserProcessMessage 3 dupHashEnv).action = .ack ∧
    ((parserProcessMessage 3 dupHashEnv).dbOps.foldl (applyDBOp 5) dupHashRow).status
      = .skipped ∧
    ((parserProcessMessage 3 dupHashEnv).dbOps.foldl (applyDBOp 5) dupHashRow).contentHash
      ≠ some "h1" := by
  decide

/-- C3 amended: whenever the computed content hash already exists in the URL
table, the parser issues exactly one DB statement, `UpdateURLStatus(id,
skipped)`, and acks — no text blob is stored, no URLs are bulk-inserted, and
nothing is published to the Frontier — but `UpdateURLStatus` leaves
`content_hash` unchanged (it is not set for the skipped row). -/
theorem dup_hash_skips_without_side_effects (maxDepth : Int) (env : ParserEnv)
    (msg : ParseMessage) (bk : String × String) (html : String)
    (hu : env.unmarshal = some msg)
    (hs : splitBucketKey msg.s3HTMLLink = some bk)
    (hg : env.getObject = .ok html)
    (hd : env.hashExists = .ok true) :
    parserProcessMessage maxDepth env =
      { dbOps := [.updateStatus msg.urlID .skipped], textPuts := [], published := [],
        action := .ack } ∧
    ∀ (now : Nat) (r : URLRow),
      (applyDBOp now r (.updateStatus msg.urlID .skipped)).contentHash = r.contentHash := by
  constructor
  · simp only [parserProcessMessage, hu, hs, hg, hd]
  · intro now r
    simp only [applyDBOp]
    split <;> rfl

/-- Witness for `dup_hash_skips_without_side_effects` at `dupHashEnv`. -/
theorem dup_hash_skips_without_side_effects_witness :
    parserProcessMessage 3 dupHashEnv =
      { dbOps := [.updateStatus "id1" .skipped], textPuts := [], published := [],
        action := .ack } ∧
    ∀ (now : Nat) (r : URLRow),
      (applyDBOp now r (.updateStatus "id1" .skipped)).contentHash = r.contentHash :=
  dup_hash_skips_without_side_effects 3 dupHashEnv
    { urlID := "id1", url := "https://y/p", s3HTMLLink := "nimbus-html/k1", depth := 1 }
    ("nimbus-html", "k1") "<html>same</html>" (by rfl) (by rfl) (by rfl) (by rfl)

/-- C4: on a successfully parsed page, discovered URLs are published only
when no over-threshold stream length was read and `depth + 1 ≤ max_depth`;
an over-80000 reading suppresses publishing while `UpdateURLParsed` is still
issued; and every published message carries `depth + 1` (hence ≤ max_depth)
and a URL returned as newly inserted by the bulk insert. -/
theorem frontier_publish_gating (maxDepth : Int) (env : ParserEnv)
    (msg : ParseMessage) (bk : String × String) (html : String)
    (hu : env.unmarshal = some msg)
    (hs : splitBucketKey msg.s3HTMLLink = some bk)
    (hg : env.getObject = .ok html)
    (hd : env.hashExists = .ok false)
    (hdoc : env.docOK = true)
    (hput : env.putText = .ok ()) :
    (∀ l : Int, env.streamLen = .ok l → 80000 < l →
      (parserProcessMessage maxDepth env).published = [] ∧
      DBOp.updateParsed msg.urlID env.hashOf (textBucket ++ "/" ++ env.textKey)
        ∈ (parserProcessMessage maxDepth env).dbOps) ∧
    ((parserProcessMessage maxDepth env).published ≠ [] →
      (∀ l : Int, env.streamLen = .ok l → l ≤ 80000) ∧ msg.depth + 1 ≤ maxDepth) ∧
    (∀ m ∈ (parserProcessMessage maxDepth env).published,
      m.depth = msg.depth + 1 ∧ m.depth ≤ maxDepth ∧ m.url ∈ env.bulkInserted) := by
  have hred : parserProcessMessage maxDepth env = parserFinish maxDepth env msg := by
    simp [parserProcessMessage, hu, hs, hg, hd, hdoc, hput]
  have hfields : (parserFinish maxDepth env msg).published =
      (parserPublishStage maxDepth env msg).2 ∧
      (parserFinish maxDepth env msg).dbOps = (parserPublishStage maxDepth env msg).1 ++
        [.updateParsed msg.urlID env.hashOf (textBucket ++ "/" ++ env.textKey)] := by
    unfold parserFinish
    cases env.updateParsed <;> exact ⟨rfl, rfl⟩
  rw [hred, hfields.1, hfields.2]
  refine ⟨?_, ?_, ?_⟩
  · intro l hl hgt
    have hbp : underBackpressure env.streamLen = true := by
      simp [underBackpressure, hl, hgt]
    constructor
    · unfold parserPublishStage
      rw [hbp]
      simp
    · simp
  · intro hne
    unfold parserPublishStage at hne
    by_cases hc : underBackpressure env.streamLen = false ∧ env.extracted ≠ [] ∧
        msg.depth + 1 ≤ maxDepth
    · refine ⟨?_, hc.2.2⟩
      intro l hl
      have := hc.1
      rw [hl] at this
      simpa [underBackpressure] using this
    · rw [if_neg hc] at hne
      simp at hne
  · intro m hm
    unfold parserPublishStage at hm
    by_cases hc : underBackpressure env.streamLen = false ∧ env.extracted ≠ [] ∧
        msg.depth + 1 ≤ maxDepth
    · rw [if_pos hc] at hm
      by_cases hv : (parserValids env.extracted).map Prod.fst ≠ []
      · rw [if_pos hv] at hm
        simp only [List.mem_map] at hm
        obtain ⟨u, hu', rfl⟩ := hm
        exact ⟨rfl, hc.2.2, hu'⟩
      · rw [if_neg hv] at hm
        simp at hm
    · rw [if_neg hc] at hm
      simp at hm

/-- A concrete Parse delivery processed while the Frontier stream reports
100000 entries (over the 80000 backpressure threshold). -/
def backpressureEnv : ParserEnv :=
  { unmarshal := some
      { urlID := "id2", url := "https://z/p", s3HTMLLink := "nimbus-html/k2", depth := 0 }
    getObject := .ok "<html>two</html>"
    hashOf := "h2"
    hashExists := .ok false
    docOK := true
    extracted := [{ url := "https://z/a", host := some "z" },
      { url := "https://z/b", host := some "z" }]
    text := "two"
    textKey := "tk2"
    putText := .ok ()
    streamLen := .ok 100000
    bulkInserted := ["https://z/a", "https://z/b"]
    updateParsed := .ok ()
    seenDomains := [] }

/-- Witness for `frontier_publish_gating`: under an over-threshold stream
length reading nothing is published and `UpdateURLParsed` is still issued. -/
theorem frontier_publish_gating_witness :
    (parserProcessMessage 3 backpressureEnv).published = [] ∧
    DBOp.updateParsed "id2" "h2" (textBucket ++ "/" ++ "tk2")
      ∈ (parserProcessMessage 3 backpressureEnv).dbOps :=
  (frontier_publish_gating 3 backpressureEnv
    { urlID := "id2", url := "https://z/p", s3HTMLLink := "nimbus-html/k2", depth := 0 }
    ("nimbus-html", "k2") "<html>two</html>"
    (by rfl) (by rfl) (by rfl) (by rfl) (by rfl) (by rfl)).1 100000 (by rfl) (by norm_num)

/-- C9: when the `StreamLen` query itself fails, the parser treats the page
as not under backpressure: the whole run has exactly the effects it would
have had on a successful reading of 0 (inserts and publishes proceed as
usual); backpressure is applied only on a successful reading above the
threshold. -/
theorem streamlen_error_no_backpressure (maxDepth : Int) (env : ParserEnv)
    (h : env.streamLen = .error ()) :
    parserProcessMessage maxDepth env =
      parserProcessMessage maxDepth { env with streamLen := .ok 0 } := by
  cases env with
  | mk unmarshal getObject hashOf hashExists docOK extracted text textKey putText
      streamLen bulkInserted updateParsed seenDomains =>
    simp only at h
    subst h
    rfl

/-- Witness for `streamlen_error_no_backpressure` at a concrete delivery
whose `StreamLen` call fails. -/
theorem streamlen_error_no_backpressure_witness :
    parserProcessMessage 3 { backpressureEnv with streamLen := .error () } =
      parserProcessMessage 3 { backpressureEnv with streamLen := .ok 0 } :=
  streamlen_error_no_backpressure 3 { backpressureEnv with streamLen := .error () } (by rfl)

/-! ## Stream consumer (`src/unnamed/part_016`) -/

/-- A stream entry as `Consumer.buildDelivery` sees it: `payload` is the
result of the `msg.Values["payload"].(string)` type assertion — `none` when
the field is missing or not a string. -/
structure XMessage where
  id : String
  payload : Option String
deriving DecidableEq, Repr

/-- A delivery handed to the workers, carrying the raw payload bytes. -/
structure Delivery where
  id : String
  body : String
deriving DecidableEq, Repr

/-- `Consumer.buildDelivery` (`src/unnamed/part_016`): when the payload field
is missing, non-string or empty, the entry is acked (`XAck`) and dropped with
an error log; otherwise a `Delivery` carrying the payload is produced.
Returns the delivery (if any) and the id acked here (if any). -/
def buildDelivery (m : XMessage) : Option Delivery × Option String :=
  match m.payload with
  | none => (none, some m.id)
  | some p =>
      if p = "" then (none, some m.id)
      else (some { id := m.id, body := p }, none)

/-- Per-batch handling shared by the read loop and the reclaim loop: each
message goes through `buildDelivery`; dropped entries are skipped
(`continue`) and the rest are sent on the shared channel in order.
Returns (deliveries emitted, ids acked as poison). -/
def deliverBatch (msgs : List XMessage) : List Delivery × List String :=
  (msgs.filterMap (fun m => (buildDelivery m).1),
    msgs.filterMap (fun m => (buildDelivery m).2))

/-- One `XREADGROUP` batch of `Consumer.readLoop`. -/
def readLoopBatch (msgs : List XMessage) : List Delivery × List String :=
  deliverBatch msgs

/-- One `XAUTOCLAIM` batch of `Consumer.reclaimPending`. -/
def reclaimBatch (msgs : List XMessage) : List Delivery × List String :=
  deliverBatch msgs

/-- C5: from either the read loop or the reclaim loop, an entry whose payload
is missing or empty is acked and dropped: no delivery with an empty body is
ever handed to the workers, every emitted delivery carries some entry's
non-empty payload, and every such poison entry's id is acked. -/
theorem empty_payload_acked_and_dropped (msgs : List XMessage) :
    (∀ d ∈ (readLoopBatch msgs).1, d.body ≠ "" ∧
      ∃ m ∈ msgs, m.payload = some d.body) ∧
    (∀ d ∈ (reclaimBatch msgs).1, d.body ≠ "" ∧
      ∃ m ∈ msgs, m.payload = some d.body) ∧
    (∀ m ∈ msgs, m.payload = none ∨ m.payload = some "" →
      m.id ∈ (readLoopBatch msgs).2 ∧ m.id ∈ (reclaimBatch msgs).2 ∧
      ∀ d ∈ (readLoopBatch msgs).1, d.id ≠ m.id ∨ d.body ≠ "") := by
  have hdeliv : ∀ d ∈ (deliverBatch msgs).1, d.body ≠ "" ∧
      ∃ m ∈ msgs, m.payload = some d.body := by
    intro d hd
    simp only [deliverBatch, List.mem_filterMap] at hd
    obtain ⟨m, hm, hbuild⟩ := hd
    rcases hp : m.payload with _ | p
    · simp [buildDelivery, hp] at hbuild
    · by_cases hne : p = ""
      · simp [buildDelivery, hp, hne] at hbuild
      · simp only [buildDelivery, hp, if_neg hne, Option.some.injEq] at hbuild
        subst hbuild
        exact ⟨hne, m, hm, hp⟩
  refine ⟨hdeliv, hdeliv, ?_⟩
  intro m hm hbad
  have hacked : m.id ∈ (deliverBatch msgs).2 := by
    simp only [deliverBatch, List.mem_filterMap]
    refine ⟨m, hm, ?_⟩
    rcases hbad with h | h <;> simp [buildDelivery, h]
  refine ⟨hacked, hacked, ?_⟩
  intro d hd
  right
  exact (hdeliv d hd).1

/-- Witness for `empty_payload_acked_and_dropped` on a concrete batch: the
missing-payload and empty-payload entries are acked. -/
theorem empty_payload_acked_and_dropped_witness :
    "m2" ∈ (readLoopBatch [⟨"m1", some "x"⟩, ⟨"m2", none⟩, ⟨"m3", some ""⟩]).2 ∧
    "m3" ∈ (reclaimBatch [⟨"m1", some "x"⟩, ⟨"m2", none⟩, ⟨"m3", some ""⟩]).2 :=
  ⟨((empty_payload_acked_and_dropped _).2.2 ⟨"m2", none⟩ (by simp) (Or.inl rfl)).1,
    ((empty_payload_acked_and_dropped _).2.2 ⟨"m3", some ""⟩ (by simp) (Or.inr rfl)).2.1⟩

/-! ## DNS cache with SSRF filter (`src/unnamed/part_019`) -/

/-- An IP address as classified by `net/netip`: IPv4 octets or IPv6 16-bit
groups. -/
inductive IPAddr
  | v4 (a b c d : Nat)
  | v6 (g0 g1 g2 g3 g4 g5 g6 g7 : Nat)
deriving DecidableEq, Repr

/-- `netip.Addr.IsLoopback`: 127.0.0.0/8 or ::1. -/
def isLoopback : IPAddr → Bool
  | .v4 a _ _ _ => a = 127
  | .v6 g0 g1 g2 g3 g4 g5 g6 g7 =>
      g0 = 0 ∧ g1 = 0 ∧ g2 = 0 ∧ g3 = 0 ∧ g4 = 0 ∧ g5 = 0 ∧ g6 = 0 ∧ g7 = 1

/-- `netip.Addr.IsPrivate`: RFC 1918 ranges or fc00::/7. -/
def isPrivate : IPAddr → Bool
  | .v4 a b _ _ =>
      a = 10 ∨ (a = 172 ∧ 16 ≤ b ∧ b ≤ 31) ∨ (a = 192 ∧ b = 168)
  | .v6 g0 _ _ _ _ _ _ _ => 0xfc00 ≤ g0 ∧ g0 ≤ 0xfdff

/-- `netip.Addr.IsLinkLocalUnicast`: 169.254.0.0/16 or fe80::/10. -/
def isLinkLocalUnicast : IPAddr → Bool
  | .v4 a b _ _ => a = 169 ∧ b = 254
  | .v6 g0 _ _ _ _ _ _ _ => 0xfe80 ≤ g0 ∧ g0 ≤ 0xfebf

/-- `netip.Addr.IsLinkLocalMulticast`: 224.0.0.0/24 or ff02::/16. -/
def isLinkLocalMulticast : IPAddr → Bool
  | .v4 a b c _ => a = 224 ∧ b = 0 ∧ c = 0
  | .v6 g0 _ _ _ _ _ _ _ => g0 = 0xff02

/-- `netip.Addr.IsUnspecified`: 0.0.0.0 or ::. -/
def isUnspecified : IPAddr → Bool
  | .v4 a b c d => a = 0 ∧ b = 0 ∧ c = 0 ∧ d = 0
  | .v6 g0 g1 g2 g3 g4 g5 g6 g7 =>
      g0 = 0 ∧ g1 = 0 ∧ g2 = 0 ∧ g3 = 0 ∧ g4 = 0 ∧ g5 = 0 ∧ g6 = 0 ∧ g7 = 0

/-- `isPrivateIP` (`src/unnamed/part_019`) on the `netip.ParseAddr` outcome
of the candidate string: unparseable strings are rejected, as is any address
that is loopback, private, link-local, or unspecified. -/
def isPrivateIP (parsed : Option IPAddr) : Bool :=
  match parsed with
  | none => true
  | some addr =>
      isLoopback addr || isPrivate addr || isLinkLocalUnicast addr ||
        isLinkLocalMulticast addr || isUnspecified addr

/-- The outcome of `redis.Get` on the `dns:{host}` key: a cached value, the
`redis.Nil` miss, or a transport error. -/
inductive RGet
  | found (v : String)
  | nil
  | err
deriving DecidableEq, Repr

/-- The environment one `DNSCache.LookupHost` call observes: the cache read,
the `net.DefaultResolver.LookupHost` result (`none` = resolver error), and
the `netip.ParseAddr` oracle for address strings. -/
structure DNSEnv where
  get : RGet
  resolve : Option (List String)
  parse : String → Option IPAddr

/-- `DNSCache.LookupHost` (`src/unnamed/part_019`) as a pure function:
returns the address it yields without error (else `none`) together with the
cache writes it attempts (`dns:{host}` key, value, 5-minute TTL elided). -/
def lookupHost (env : DNSEnv) (host : String) : Option String × List (String × String) :=
  match env.get with
  | .found c => if isPrivateIP (env.parse c) then (none, []) else (some c, [])
  | .err => (none, [])
  | .nil =>
      match env.resolve with
      | none => (none, [])
      | some [] => (none, [])
      | some (ip :: _) =>
          if isPrivateIP (env.parse ip) then (none, [])
          else (some ip, [("dns:" ++ host, ip)])

/-- C6: `LookupHost` never returns, without an error, an address that is
loopback, private, link-local, or unspecified — the cached value is
re-checked on a hit and the fresh resolution is checked on a miss — a failed
lookup writes nothing into the cache, and every cache write stores exactly
the address being returned. -/
theorem lookupHost_never_returns_private (env : DNSEnv) (host : String) :
    (∀ ip, (lookupHost env host).1 = some ip → isPrivateIP (env.parse ip) = false) ∧
    ((lookupHost env host).1 = none → (lookupHost env host).2 = []) ∧
    (∀ kv ∈ (lookupHost env host).2,
      (lookupHost env host).1 = some kv.2 ∧ kv.1 = "dns:" ++ host) := by
  obtain ⟨g, res, parse⟩ := env
  rcases g with c | _ | _
  · rcases hp : isPrivateIP (parse c) with _ | _
    · refine ⟨?_, by simp [lookupHost, hp], by simp [lookupHost, hp]⟩
      intro ip hip
      simp only [lookupHost, hp, Bool.false_eq_true, if_false, Option.some.injEq] at hip
      subst hip
      exact hp
    · simp [lookupHost, hp]
  · rcases res with _ | ⟨_ | ⟨ip, rest⟩⟩
    · simp [lookupHost]
    · simp [lookupHost]
    · rcases hp : isPrivateIP (parse ip) with _ | _
      · refine ⟨?_, by simp [lookupHost, hp], ?_⟩
        · intro ip' hip
          simp only [lookupHost, hp, Bool.false_eq_true, if_false, Option.some.injEq] at hip
          subst hip
          exact hp
        · intro kv hkv
          simp only [lookupHost, hp, Bool.false_eq_true, if_false,
            List.mem_singleton] at hkv
          subst hkv
          simp [lookupHost, hp]
      · simp [lookupHost, hp]
  · simp [lookupHost]

/-- A lookup environment whose cache holds the private address 10.0.0.1. -/
def privateCacheEnv : DNSEnv :=
  { get := .found "10.0.0.1"
    resolve := some ["10.0.0.1"]
    parse := fun _ => some (.v4 10 0 0 1) }

/-- Witness for `lookupHost_never_returns_private`: a cache hit on a private
address (10.0.0.1) is rejected and nothing is written. -/
theorem lookupHost_never_returns_private_witness :
    (lookupHost privateCacheEnv "internal").2 = [] :=
  (lookupHost_never_returns_private privateCacheEnv "internal").2.1 (by rfl)

/-! ## robots.txt crawl-delay extraction (`src/internal/robots/robots.go`) -/

/-- `robots.MinCrawlDelayMs`: the floor applied to any parsed Crawl-Delay. -/
def MinCrawlDelayMs : Int := 100

/-- The outcome of `robotstxt.FromString` followed by the group selection
`FindGroup(CrawlerName)` else `FindGroup("*")` of `extractCrawlDelay`:
a parse error, or the selected group with its `CrawlDelay` duration in
nanoseconds (0 when the directive is absent). -/
inductive RobotsParse
  | parseError
  | group (crawlDelayNs : Int)
deriving DecidableEq, Repr

/-- `extractCrawlDelay` (`src/internal/robots/robots.go`): on parse error,
`DefaultCrawlDelayMs`; when the selected group's `CrawlDelay > 0`, its value
in milliseconds (`time.Duration.Milliseconds` truncates) floored at
`MinCrawlDelayMs`; otherwise `DefaultCrawlDelayMs`. -/
def extractCrawlDelay : RobotsParse → Int
  | .parseError => defaultCrawlDelayMs
  | .group d =>
      if 0 < d then
        let ms := d / 1000000
        if ms < MinCrawlDelayMs then MinCrawlDelayMs else ms
      else defaultCrawlDelayMs

/-- C7: the extracted crawl delay is always at least `MinCrawlDelayMs`
(100 ms); a positive Crawl-Delay directive yields its millisecond value
floored at 100 ms, and an absent/zero directive or unparseable body yields
`DefaultCrawlDelayMs` (200 ms). -/
theorem extractCrawlDelay_floored (r : RobotsParse) :
    MinCrawlDelayMs ≤ extractCrawlDelay r ∧
    (∀ d : Int, r = .group d → 0 < d →
      extractCrawlDelay r = max (d / 1000000) MinCrawlDelayMs) ∧
    ((r = .parseError ∨ ∃ d, r = .group d ∧ d ≤ 0) →
      extractCrawlDelay r = defaultCrawlDelayMs) := by
  rcases r with _ | d
  · refine ⟨by norm_num [extractCrawlDelay, MinCrawlDelayMs, defaultCrawlDelayMs], ?_, ?_⟩
    · intro d hd
      exact absurd hd (by simp)
    · intro _
      rfl
  · by_cases hd : 0 < d
    · have hred : extractCrawlDelay (.group d) =
          if d / 1000000 < MinCrawlDelayMs then MinCrawlDelayMs else d / 1000000 := by
        simp [extractCrawlDelay, hd]
      refine ⟨?_, ?_, ?_⟩
      · rw [hred]
        split <;> omega
      · intro d' hd' _
        simp only [RobotsParse.group.injEq] at hd'
        subst hd'
        rw [hred]
        omega
      · intro h
        rcases h with h | ⟨d', hd', hle⟩
        · exact absurd h (by simp)
        · simp only [RobotsParse.group.injEq] at hd'
          subst hd'
          omega
    · have hred : extractCrawlDelay (.group d) = defaultCrawlDelayMs := by
        simp [extractCrawlDelay, hd]
      refine ⟨by rw [hred]; norm_num [MinCrawlDelayMs, defaultCrawlDelayMs], ?_, fun _ => hred⟩
      intro d' hd' hpos
      simp only [RobotsParse.group.injEq] at hd'
      subst hd'
      exact absurd hpos hd

/-- Witness for `extractCrawlDelay_floored`: a 10 ms Crawl-Delay directive
(10^7 ns) is floored to 100 ms. -/
theorem extractCrawlDelay_floored_witness :
    extractCrawlDelay (.group 10000000) = max ((10000000 : Int) / 1000000) MinCrawlDelayMs :=
  (extractCrawlDelay_floored (.group 10000000)).2.1 10000000 rfl (by norm_num)

/-! ## Link extraction and URL normalization (`src/unnamed/part_011`)

`ExtractURLs` normalizes every kept link with `purell.NormalizeURL` under
`normalizationFlags`. The purell library's source is not part of this
repository, so the normalization itself is modelled from the spec's step
list (lowercase scheme and host, uppercase percent-escapes, remove default
port, remove trailing slash, resolve dot segments, collapse duplicate
slashes, drop fragment, sort query parameters); trailing-slash removal is
applied after the path rewrites, as the library orders it. Component strings
are modelled as lists of character codes. -/

/-- A string of character codes. -/
abbrev CStr := List Nat

/-- Lowercase one ASCII character code. -/
def lowerChar (c : Nat) : Nat := if 65 ≤ c ∧ c ≤ 90 then c + 32 else c

/-- Lowercase a string (scheme/host normalization). -/
def lowerCStr (s : CStr) : CStr := s.map lowerChar

/-- Uppercase one ASCII character code (for hex digits of an escape). -/
def upChar (c : Nat) : Nat := if 97 ≤ c ∧ c ≤ 122 then c - 32 else c

/-- Modelled from the spec: "uppercase percent-escapes" — the two characters
following each `%` (code 37) are uppercased. -/
def upEscapes : CStr → CStr
  | [] => []
  | c :: rest =>
      if c = 37 then
        match rest with
        | a :: b :: rest2 => 37 :: upChar a :: upChar b :: upEscapes rest2
        | [] => [c]
        | [a] => [c, a]
      else c :: upEscapes rest

theorem lowerChar_idem (c : Nat) : lowerChar (lowerChar c) = lowerChar c := by
  unfold lowerChar
  split_ifs <;> omega

theorem upChar_idem (c : Nat) : upChar (upChar c) = upChar c := by
  unfold upChar
  split_ifs <;> omega

theorem lowerCStr_idem (s : CStr) : lowerCStr (lowerCStr s) = lowerCStr s := by
  unfold lowerCStr
  rw [List.map_map]
  exact List.map_congr_left (fun c _ => lowerChar_idem c)

theorem upChar_ne_percent (c : Nat) (h : c ≠ 37) : upChar c ≠ 37 := by
  unfold upChar
  split_ifs <;> omega

theorem upEscapes_idem (l : CStr) : upEscapes (upEscapes l) = upEscapes l := by
  induction l using upEscapes.induct with
  | case1 => rfl
  | case2 a b rest2 ih =>
      rw [show upEscapes (37 :: a :: b :: rest2) =
          37 :: upChar a :: upChar b :: upEscapes rest2 from by simp [upEscapes]]
      rw [show upEscapes (37 :: upChar a :: upChar b :: upEscapes rest2) =
          37 :: upChar (upChar a) :: upChar (upChar b) :: upEscapes (upEscapes rest2) from by
        simp [upEscapes]]
      rw [upChar_idem, upChar_idem, ih]
  | case3 => rfl
  | case4 a => rfl
  | case5 c rest hc ih =>
      rw [show upEscapes (c :: rest) = c :: upEscapes rest from by
        rw [upEscapes.eq_def]
        simp [hc]]
      rw [show upEscapes (c :: upEscapes rest) = c :: upEscapes (upEscapes rest) from by
        rw [upEscapes.eq_def]
        simp [hc]]
      rw [ih]

/-- One step of RFC 3986 dot-segment removal over a path's segment list
(46 = `'.'`): `.` is dropped, `..` pops the previous segment, any other
segment is kept. -/
def dotSegStep (acc : List CStr) (s : CStr) : List CStr :=
  if s = [46] then acc
  else if s = [46, 46] then acc.dropLast
  else acc ++ [s]

/-- Modelled from the spec: "resolve dot segments". The path is the list of
segments after the leading slash (`/a/b/` ↦ `[a, b, ε]`); a final dot
segment leaves a trailing slash. -/
def removeDotSegs (l : List CStr) : List CStr :=
  if l.getLast? = some [46] ∨ l.getLast? = some [46, 46] then
    l.foldl dotSegStep [] ++ [[]]
  else l.foldl dotSegStep []

/-- Modelled from the spec: "collapse duplicate slashes" — empty segments
(which stand for `//`) vanish, a trailing slash survives as one. -/
def collapseSlashes (l : List CStr) : List CStr :=
  l.filter (fun s => decide (s ≠ [])) ++ (if l.getLast? = some [] then [[]] else [])

/-- Modelled from the spec: "remove trailing slash". -/
def removeTrailingSlash (l : List CStr) : List CStr :=
  if l.getLast? = some [] then l.dropLast else l

/-- The whole path normalization: uppercase escapes in each segment, resolve
dot segments, collapse duplicate slashes, remove the trailing slash last (as
the library orders these rewrites). -/
def normPath (l : List CStr) : List CStr :=
  removeTrailingSlash (collapseSlashes (removeDotSegs (l.map upEscapes)))

theorem removeTrailing_collapse (m : List CStr) :
    removeTrailingSlash (collapseSlashes m) = m.filter (fun s => decide (s ≠ [])) := by
  unfold collapseSlashes removeTrailingSlash
  by_cases h : m.getLast? = some []
  · rw [if_pos h, List.getLast?_concat, if_pos rfl, List.dropLast_concat]
  · rw [if_neg h]
    simp only [List.append_nil]
    have hne : (m.filter (fun s => decide (s ≠ []))).getLast? ≠ some ([] : CStr) := by
      intro hcon
      have hmem := List.mem_of_mem_getLast? hcon
      rw [List.mem_filter] at hmem
      simp at hmem
    rw [if_neg hne]

theorem foldl_dotSegStep_subset (l : List CStr) :
    ∀ acc : List CStr, ∀ s ∈ l.foldl dotSegStep acc, s ∈ acc ∨ s ∈ l := by
  induction l with
  | nil =>
      intro acc s hs
      exact Or.inl hs
  | cons x xs ih =>
      intro acc s hs
      rw [List.foldl_cons] at hs
      rcases ih (dotSegStep acc x) s hs with h | h
      · unfold dotSegStep at h
        split_ifs at h
        · exact Or.inl h
        · exact Or.inl (List.dropLast_subset _ h)
        · rcases List.mem_append.mp h with h | h
          · exact Or.inl h
          · simp only [List.mem_singleton] at h
            subst h
            exact Or.inr (List.mem_cons_self _ _)
      · exact Or.inr (List.mem_cons_of_mem _ h)

/-- Segment lists free of `.` and `..` segments. -/
def NoDots (l : List CStr) : Prop := ∀ s ∈ l, s ≠ [46] ∧ s ≠ [46, 46]

theorem foldl_dotSegStep_noDots (l : List CStr) :
    ∀ acc : List CStr, NoDots acc → NoDots (l.foldl dotSegStep acc) := by
  induction l with
  | nil =>
      intro acc hacc
      exact hacc
  | cons x xs ih =>
      intro acc hacc
      rw [List.foldl_cons]
      refine ih _ ?_
      intro s hs
      unfold dotSegStep at hs
      split_ifs at hs with h1 h2
      · exact hacc s hs
      · exact hacc s (List.dropLast_subset _ hs)
      · rcases List.mem_append.mp hs with h | h
        · exact hacc s h
        · simp only [List.mem_singleton] at h
          subst h
          exact ⟨h1, h2⟩

theorem removeDotSegs_noDots (l : List CStr) : NoDots (removeDotSegs l) := by
  unfold removeDotSegs
  split_ifs
  · intro s hs
    rcases List.mem_append.mp hs with h | h
    · exact foldl_dotSegStep_noDots l [] (by intro s hs; simp at hs) s h
    · simp only [List.mem_singleton] at h
      subst h
      exact ⟨by simp, by simp⟩
  · exact foldl_dotSegStep_noDots l [] (by intro s hs; simp at hs)

theorem foldl_dotSegStep_of_noDots (l : List CStr) (h : NoDots l) :
    ∀ acc : List CStr, l.foldl dotSegStep acc = acc ++ l := by
  induction l with
  | nil =>
      intro acc
      simp
  | cons x xs ih =>
      intro acc
      rw [List.foldl_cons]
      have hx := h x (List.mem_cons_self _ _)
      have hstep : dotSegStep acc x = acc ++ [x] := by
        unfold dotSegStep
        rw [if_neg hx.1, if_neg hx.2]
      rw [hstep, ih (fun s hs => h s (List.mem_cons_of_mem _ hs))]
      simp

theorem removeDotSegs_of_noDots (l : List CStr) (h : NoDots l) :
    removeDotSegs l = l := by
  unfold removeDotSegs
  have hcond : ¬ (l.getLast? = some [46] ∨ l.getLast? = some [46, 46]) := by
    rintro (hc | hc)
    · exact (h _ (List.mem_of_mem_getLast? hc)).1 rfl
    · exact (h _ (List.mem_of_mem_getLast? hc)).2 rfl
  rw [if_neg hcond, foldl_dotSegStep_of_noDots l h []]
  simp

theorem removeDotSegs_mem (l : List CStr) (s : CStr) (hs : s ∈ removeDotSegs l) :
    s ∈ l ∨ s = [] := by
  unfold removeDotSegs at hs
  split_ifs at hs
  · rcases List.mem_append.mp hs with h | h
    · rcases foldl_dotSegStep_subset l [] s h with h | h
      · simp at h
      · exact Or.inl h
    · simp only [List.mem_singleton] at h
      exact Or.inr h
  · rcases foldl_dotSegStep_subset l [] s hs with h | h
    · simp at h
    · exact Or.inl h

/-- Pointwise-fixed maps leave a list unchanged. -/
theorem map_fixed {α : Type} {f : α → α} {l : List α} (h : ∀ x ∈ l, f x = x) :
    l.map f = l :=
  (List.map_congr_left h).trans (List.map_id l)

theorem normPath_idem (l : List CStr) : normPath (normPath l) = normPath l := by
  unfold normPath
  rw [removeTrailing_collapse, removeTrailing_collapse]
  have hfix : ((removeDotSegs (l.map upEscapes)).filter
      (fun s => decide (s ≠ []))).map upEscapes =
      (removeDotSegs (l.map upEscapes)).filter (fun s => decide (s ≠ [])) := by
    refine map_fixed ?_
    intro s hs
    rw [List.mem_filter] at hs
    rcases removeDotSegs_mem _ s hs.1 with h | h
    · rw [List.mem_map] at h
      obtain ⟨x, _, rfl⟩ := h
      exact upEscapes_idem x
    · subst h
      rfl
  rw [hfix]
  have hnd : NoDots ((removeDotSegs (l.map upEscapes)).filter
      (fun s => decide (s ≠ []))) := by
    intro s hs
    rw [List.mem_filter] at hs
    exact removeDotSegs_noDots _ s hs.1
  rw [removeDotSegs_of_noDots _ hnd, List.filter_filter]
  simp

/-- Render a query pair as its `k=v` sort key (61 = `'='`). -/
def qkey (p : CStr × CStr) : CStr := p.1 ++ 61 :: p.2

/-- Boolean lexicographic comparison of code strings. -/
def cstrLeB : CStr → CStr → Bool
  | [], _ => true
  | _ :: _, [] => false
  | a :: as, b :: bs => if a < b then true else if a = b then cstrLeB as bs else false

/-- Modelled from the spec: "sort query parameters" — pairs ordered by their
rendered `k=v` form. -/
def qle (p q : CStr × CStr) : Prop := cstrLeB (qkey p) (qkey q) = true

instance : DecidableRel qle := fun p q =>
  inferInstanceAs (Decidable (cstrLeB (qkey p) (qkey q) = true))

theorem cstrLeB_cons_iff (x y : Nat) (xs ys : CStr) :
    cstrLeB (x :: xs) (y :: ys) = true ↔ x < y ∨ (x = y ∧ cstrLeB xs ys = true) := by
  simp only [cstrLeB]
  split_ifs with h1 h2 <;> simp_all

theorem cstrLeB_total (a : CStr) : ∀ b, cstrLeB a b = true ∨ cstrLeB b a = true := by
  induction a with
  | nil =>
      intro b
      exact Or.inl rfl
  | cons x xs ih =>
      intro b
      cases b with
      | nil => exact Or.inr rfl
      | cons y ys =>
          rcases Nat.lt_trichotomy x y with h | h | h
          · exact Or.inl ((cstrLeB_cons_iff _ _ _ _).mpr (Or.inl h))
          · subst h
            rcases ih ys with h | h
            · exact Or.inl ((cstrLeB_cons_iff _ _ _ _).mpr (Or.inr ⟨rfl, h⟩))
            · exact Or.inr ((cstrLeB_cons_iff _ _ _ _).mpr (Or.inr ⟨rfl, h⟩))
          · exact Or.inr ((cstrLeB_cons_iff _ _ _ _).mpr (Or.inl h))

theorem cstrLeB_trans (a : CStr) :
    ∀ b c, cstrLeB a b = true → cstrLeB b c = true → cstrLeB a c = true := by
  induction a with
  | nil =>
      intro b c _ _
      rfl
  | cons x xs ih =>
      intro b c hab hbc
      cases b with
      | nil => simp [cstrLeB] at hab
      | cons y ys =>
          cases c with
          | nil => simp [cstrLeB] at hbc
          | cons z zs =>
              rw [cstrLeB_cons_iff] at hab hbc ⊢
              rcases hab with h1 | ⟨rfl, h1⟩
              · rcases hbc with h2 | ⟨rfl, h2⟩
                · exact Or.inl (h1.trans h2)
                · exact Or.inl h1
              · rcases hbc with h2 | ⟨rfl, h2⟩
                · exact Or.inl h2
                · exact Or.inr ⟨rfl, ih ys zs h1 h2⟩

instance : IsTotal (CStr × CStr) qle := ⟨fun p q => cstrLeB_total (qkey p) (qkey q)⟩

instance : IsTrans (CStr × CStr) qle :=
  ⟨fun p q r => cstrLeB_trans (qkey p) (qkey q) (qkey r)⟩

/-- Uppercase escapes in both components of a query pair. -/
def upPair (p : CStr × CStr) : CStr × CStr := (upEscapes p.1, upEscapes p.2)

/-- Sort a query's pairs. -/
def sortQuery (q : List (CStr × CStr)) : List (CStr × CStr) :=
  List.insertionSort qle q

theorem upPair_idem (p : CStr × CStr) : upPair (upPair p) = upPair p := by
  simp [upPair, upEscapes_idem]

/-- `"http"` and `"https"` as code strings. -/
def httpCS : CStr := [104, 116, 116, 112]

def httpsCS : CStr := [104, 116, 116, 112, 115]

/-- Modelled from the spec: "remove default port" — port 80 for `http`,
port 443 for `https`. -/
def stripDefaultPort (scheme : CStr) (port : Option Nat) : Option Nat :=
  if port = some 80 ∧ scheme = httpCS then none
  else if port = some 443 ∧ scheme = httpsCS then none
  else port

theorem stripDefaultPort_idem (s : CStr) (p : Option Nat) :
    stripDefaultPort s (stripDefaultPort s p) = stripDefaultPort s p := by
  unfold stripDefaultPort
  split_ifs <;> simp_all

/-- A parsed absolute URL: scheme, lowercased-or-not host, optional port,
path segments after the leading slash, query pairs, optional fragment. -/
structure NURL where
  scheme : CStr
  host : CStr
  port : Option Nat
  segs : List CStr
  query : List (CStr × CStr)
  fragment : Option CStr
deriving DecidableEq, Repr

/-- Modelled from the spec: the normalization `ExtractURLs` applies to every
kept link (`purell.NormalizeURL` with `normalizationFlags`): lowercase scheme
and host, uppercase percent-escapes, remove default port, resolve dot
segments, collapse duplicate slashes, remove trailing slash, drop fragment,
sort query parameters. -/
def normalizeURL (u : NURL) : NURL :=
  { scheme := lowerCStr u.scheme
    host := lowerCStr u.host
    port := stripDefaultPort (lowerCStr u.scheme) u.port
    segs := normPath u.segs
    query := sortQuery (u.query.map upPair)
    fragment := none }

theorem sortQuery_idem_on_mapped (q : List (CStr × CStr)) :
    sortQuery ((sortQuery (q.map upPair)).map upPair) = sortQuery (q.map upPair) := by
  have hfix : (sortQuery (q.map upPair)).map upPair = sortQuery (q.map upPair) := by
    refine map_fixed ?_
    intro p hp
    unfold sortQuery at hp
    rw [List.mem_insertionSort] at hp
    rw [List.mem_map] at hp
    obtain ⟨x, _, rfl⟩ := hp
    exact upPair_idem x
  rw [hfix]
  exact List.Sorted.insertionSort_eq (List.sorted_insertionSort qle _)

/-- The normalization is idempotent on whole URLs. -/
theorem normalizeURL_idem (u : NURL) : normalizeURL (normalizeURL u) = normalizeURL u := by
  unfold normalizeURL
  simp only [NURL.mk.injEq]
  refine ⟨lowerCStr_idem _, lowerCStr_idem _, ?_, normPath_idem _, ?_, trivial⟩
  · rw [lowerCStr_idem]
    exact stripDefaultPort_idem _ _
  · exact sortQuery_idem_on_mapped u.query

/-- A relative reference as `url.Parse` yields it for an href. -/
structure RelURL where
  scheme : CStr
  hasAuthority : Bool
  host : CStr
  port : Option Nat
  absPath : Bool
  segs : List CStr
  query : List (CStr × CStr)
  fragment : Option CStr
deriving DecidableEq, Repr

/-- `base.ResolveReference(parsed)` per RFC 3986 §5.3 at the component
level: an absolute reference replaces everything; an authority replaces from
the host down; otherwise the path is replaced or merged against the base. -/
def resolveReference (b : NURL) (r : RelURL) : NURL :=
  if r.scheme ≠ [] then
    { scheme := r.scheme, host := r.host, port := r.port, segs := r.segs,
      query := r.query, fragment := r.fragment }
  else if r.hasAuthority then
    { scheme := b.scheme, host := r.host, port := r.port, segs := r.segs,
      query := r.query, fragment := r.fragment }
  else if r.segs = [] then
    { b with
      query := if r.query = [] then b.query else r.query
      fragment := r.fragment }
  else if r.absPath then
    { b with segs := r.segs, query := r.query, fragment := r.fragment }
  else
    { b with segs := b.segs.dropLast ++ r.segs, query := r.query, fragment := r.fragment }

/-- `strings.TrimSpace` over code strings (ASCII whitespace). -/
def isSpaceCode (c : Nat) : Bool :=
  c = 32 || c = 9 || c = 10 || c = 13 || c = 11 || c = 12

def trimSpace (l : CStr) : CStr :=
  ((l.dropWhile isSpaceCode).reverse.dropWhile isSpaceCode).reverse

/-- `"javascript:"`, `"mailto:"`, `"tel:"`, `"#"` as code strings. -/
def jsPrefix : CStr := [106, 97, 118, 97, 115, 99, 114, 105, 112, 116, 58]

def mailtoPrefix : CStr := [109, 97, 105, 108, 116, 111, 58]

def telPrefix : CStr := [116, 101, 108, 58]

def hashPrefix : CStr := [35]

/-- An `a[href]` element as `ExtractURLs` sees it: the raw attribute value
and the oracle outcome of `url.Parse` on its trimmed form (`none` = parse
error). -/
structure Anchor where
  href : CStr
  parsed : Option RelURL
deriving DecidableEq, Repr

/-- The skip rules of `ExtractURLs`: empty href (before trimming), then on
the trimmed href the prefixes `javascript:`, `mailto:`, `tel:`, `#`, then a
parse failure. -/
def anchorCandidate (a : Anchor) : Option RelURL :=
  if a.href = [] then none
  else
    let h := trimSpace a.href
    if jsPrefix.isPrefixOf h || mailtoPrefix.isPrefixOf h || telPrefix.isPrefixOf h ||
        hashPrefix.isPrefixOf h then none
    else a.parsed

/-- The per-anchor body of `ExtractURLs`'s loop: resolve against the base,
keep only `http`/`https`, normalize, then deduplicate via the `seen` set
(kept here as the output list itself). -/
def extractStep (b : NURL) (st : List NURL) (a : Anchor) : List NURL :=
  match anchorCandidate a with
  | none => st
  | some r =>
      let resolved := resolveReference b r
      if resolved.scheme = httpCS ∨ resolved.scheme = httpsCS then
        let normalized := normalizeURL resolved
        if normalized ∈ st then st else st ++ [normalized]
      else st

/-- `ExtractURLs` (`src/unnamed/part_011`): parse the base URL (`nil` on
error), then fold the document's `a[href]` anchors through the skip rules,
resolution, the scheme gate, normalization and per-page deduplication. -/
def ExtractURLs (anchors : List Anchor) (base : Option NURL) : List NURL :=
  match base with
  | none => []
  | some b => anchors.foldl (extractStep b) []

theorem extractStep_fold_fixed (b : NURL) (anchors : List Anchor) :
    ∀ st : List NURL, (∀ u ∈ st, normalizeURL u = u) →
      ∀ u ∈ anchors.foldl (extractStep b) st, normalizeURL u = u := by
  induction anchors with
  | nil =>
      intro st hst u hu
      exact hst u hu
  | cons a as ih =>
      intro st hst u hu
      rw [List.foldl_cons] at hu
      refine ih (extractStep b st a) ?_ u hu
      intro v hv
      unfold extractStep at hv
      rcases hac : anchorCandidate a with _ | r <;> rw [hac] at hv
      · exact hst v hv
      · dsimp only at hv
        split_ifs at hv with h1 h2
        · exact hst v hv
        · rcases List.mem_append.mp hv with h | h
          · exact hst v h
          · simp only [List.mem_singleton] at h
            subst h
            exact normalizeURL_idem _
        · exact hst v hv

/-- C8: the normalization applied by `ExtractURLs` is idempotent on its
output — every URL the extraction produces is a fixed point of the
normalization, so normalizing it again yields the identical URL. -/
theorem extractURLs_norm_idempotent (anchors : List Anchor) (base : Option NURL) :
    ∀ u ∈ ExtractURLs anchors base, normalizeURL u = u := by
  intro u hu
  unfold ExtractURLs at hu
  rcases base with _ | b
  · simp at hu
  · exact extractStep_fold_fixed b anchors [] (by intro v hv; simp at hv) u hu

/-- A one-anchor document over the base `http://x/`: the href `//y/a//b/../c?q=1`
resolves to an authority reference whose path needs dot and slash rewrites. -/
def demoBase : NURL :=
  { scheme := httpCS, host := [120], port := none, segs := [], query := [],
    fragment := none }

def demoAnchor : Anchor :=
  { href := [47, 47, 121]
    parsed := some
      { scheme := [], hasAuthority := true, host := [121], port := some 80,
        absPath := true, segs := [97, 46] :: [] ++ [[], [46, 46], [99]],
        query := [([113], [49])], fragment := some [102] } }

/-- Witness for `extractURLs_norm_idempotent` at a concrete document: the
single extracted URL is normalization-fixed. -/
theorem extractURLs_norm_idempotent_witness :
    normalizeURL
      { scheme := httpCS, host := [121], port := none, segs := [[97, 46], [99]],
        query := [([113], [49])], fragment := none } =
      { scheme := httpCS, host := [121], port := none, segs := [[97, 46], [99]],
        query := [([113], [49])], fragment := none } :=
  extractURLs_norm_idempotent [demoAnchor] (some demoBase) _ (by decide)

end Nimbus
